import Mathlib

/-!
Verification development for the `pref` preference-store module.

The JSON document model, dot-path accessors, store read/write pipeline,
filesystem watcher, change subscriptions and the migration runner are
shallowly embedded from `src/index.js` (latest revision, the one built on
`src/utils.js` and `semver`).  External collaborators of the source
(`dot-prop`, `write-file-atomic`, `semver`, `crypto`, `JSON`) are embedded
at the semantics the source relies on: dot-path traversal over the JSON
data model, temp-file-then-rename atomic writes, numeric semantic-version
triples, and the hash / JSON parser as function parameters.
-/

mutual

/-- A JSON value as persisted by the store.  Objects keep their fields in
insertion order, as JavaScript objects and `JSON.stringify` do.  Defined
mutually with field lists and array item lists so that structural
recursion and derived decidable equality work smoothly. -/
inductive JValue where
  | null : JValue
  | bool (b : Bool) : JValue
  | num (n : Int) : JValue
  | str (s : String) : JValue
  | arr (xs : JItems) : JValue
  | obj (fs : JFields) : JValue

/-- The field list of a JSON object: ordered `(key, value)` pairs. -/
inductive JFields where
  | nil : JFields
  | cons (k : String) (v : JValue) (rest : JFields) : JFields

/-- The item list of a JSON array. -/
inductive JItems where
  | nil : JItems
  | cons (v : JValue) (rest : JItems) : JItems

end

deriving instance DecidableEq for JValue, JFields, JItems

/-- The Document: the top-level JSON object held by the store
(`this.store` in the source). -/
abbrev Doc := JFields

/-- Own-property lookup on a JavaScript object (`object[p]`). -/
def objGet : JFields → String → Option JValue
  | .nil, _ => none
  | .cons k' v rest, k => if k' = k then some v else objGet rest k

/-- Own-property assignment on a JavaScript object (`object[p] = v`):
updates an existing key in place, otherwise appends, preserving the
insertion order of JavaScript objects. -/
def objSet : JFields → String → JValue → JFields
  | .nil, k, v => .cons k v .nil
  | .cons k' v' rest, k, v =>
      if k' = k then .cons k v rest else .cons k' v' (objSet rest k v)

/-- Own-property removal (`delete object[p]`). -/
def objDelete : JFields → String → JFields
  | .nil, _ => .nil
  | .cons k' v' rest, k =>
      if k' = k then rest else .cons k' v' (objDelete rest k)

/-- Splits a dot-notation key into its path segments, the segmentation the
dot-path library applies to every key (escape sequences are not used by
any caller in the source and are not modelled). -/
def splitSegsAux (cur : List Char) : List Char → List String
  | [] => [String.mk cur.reverse]
  | c :: rest =>
      if c = '.' then String.mk cur.reverse :: splitSegsAux [] rest
      else splitSegsAux (c :: cur) rest

/-- `"a.b.c"` becomes `["a", "b", "c"]`. -/
def splitPath (s : String) : List String := splitSegsAux [] s.data

/-- `dot-prop` get over the segment list: traversal stops and yields
"not found" as soon as a segment is missing or an intermediate value is
not a mapping. -/
def getSegs : JFields → List String → Option JValue
  | _, [] => none
  | m, [s] => objGet m s
  | m, s :: rest =>
      match objGet m s with
      | some (.obj fs) => getSegs fs rest
      | _ => none

/-- `dot-prop` set over the segment list: intermediate levels are created
on demand, and an intermediate value that is not a mapping is overwritten
with a fresh one. -/
def setSegs : JFields → List String → JValue → JFields
  | m, [], _ => m
  | m, [s], v => objSet m s v
  | m, s :: s' :: rest, v =>
      let child : JFields :=
        match objGet m s with
        | some (.obj fs) => fs
        | _ => .nil
      objSet m s (.obj (setSegs child (s' :: rest) v))

/-- `dot-prop` delete over the segment list: a no-op when the path does
not resolve to an existing mapping chain. -/
def delSegs : JFields → List String → JFields
  | m, [] => m
  | m, [s] => objDelete m s
  | m, s :: s' :: rest =>
      match objGet m s with
      | some (.obj fs) => objSet m s (.obj (delSegs fs (s' :: rest)))
      | _ => m

/-- `dotProp.get(store, key)` (no default). -/
def dotGet (d : Doc) (key : String) : Option JValue := getSegs d (splitPath key)

/-- `dotProp.set(store, key, value)`. -/
def dotSet (d : Doc) (key : String) (v : JValue) : Doc := setSegs d (splitPath key) v

/-- `dotProp.delete(store, key)`. -/
def dotDelete (d : Doc) (key : String) : Doc := delSegs d (splitPath key)

namespace Pref

/-- `get(key, defaultValue)` from the source: dot-path read over the
current document, with `none` standing for JavaScript `undefined`. -/
def get (d : Doc) (key : String) (defaultValue : Option JValue) : Option JValue :=
  match dotGet d key with
  | some v => some v
  | none => defaultValue

end Pref

theorem objGet_objSet_self : ∀ (m : JFields) (k : String) (v : JValue),
    objGet (objSet m k v) k = some v
  | .nil, k, v => by simp [objSet, objGet]
  | .cons k' v' rest, k, v => by
      by_cases h : k' = k
      · simp [objSet, h, objGet]
      · simp [objSet, h, objGet, objGet_objSet_self rest k v]

theorem splitSegsAux_ne_nil (cur : List Char) (cs : List Char) :
    splitSegsAux cur cs ≠ [] := by
  induction cs generalizing cur with
  | nil => simp [splitSegsAux]
  | cons c rest ih =>
      by_cases h : c = '.'
      · simp [splitSegsAux, h]
      · simpa [splitSegsAux, h] using ih (c :: cur)

theorem splitPath_ne_nil (s : String) : splitPath s ≠ [] :=
  splitSegsAux_ne_nil [] s.data

theorem getSegs_setSegs_self : ∀ (segs : List String), segs ≠ [] →
    ∀ (m : JFields) (v : JValue), getSegs (setSegs m segs v) segs = some v
  | [], hne, _, _ => absurd rfl hne
  | [s], _, m, v => by simp [setSegs, getSegs, objGet_objSet_self]
  | s :: s' :: rest, _, m, v => by
      simp only [setSegs, getSegs, objGet_objSet_self]
      exact getSegs_setSegs_self (s' :: rest) (by simp) _ v

/-- One hexadecimal digit, used for `\u00XX` escapes of control
characters. -/
def hexDigit (n : Nat) : Char :=
  if n < 10 then Char.ofNat ('0'.toNat + n) else Char.ofNat ('a'.toNat + (n - 10))

/-- JSON string escaping as performed by `JSON.stringify`. -/
def escChar (c : Char) : List Char :=
  if c = '"' then ['\\', '"']
  else if c = '\\' then ['\\', '\\']
  else if c = '\n' then ['\\', 'n']
  else if c = '\t' then ['\\', 't']
  else if c = '\r' then ['\\', 'r']
  else if c.toNat = 8 then ['\\', 'b']
  else if c.toNat = 12 then ['\\', 'f']
  else if c.toNat < 32 then
    ['\\', 'u', '0', '0', hexDigit (c.toNat / 16), hexDigit (c.toNat % 16)]
  else [c]

/-- A JSON string literal: `"..."` with the necessary escapes. -/
def jstring (s : String) : String :=
  "\"" ++ String.mk (s.data.flatMap escChar) ++ "\""

mutual

/-- `JSON.stringify(value, null, '\t')`: pretty-printed JSON with tab
indentation, mirroring the serialization the source writes to disk.
`ind` is the indentation accumulated from the enclosing levels. -/
def stringifyVal (ind : String) : JValue → String
  | .null => "null"
  | .bool b => if b then "true" else "false"
  | .num n => toString n
  | .str s => jstring s
  | .arr .nil => "[]"
  | .arr (.cons v rest) =>
      "[\n" ++ String.intercalate ",\n" (stringifyItems (ind ++ "\t") (.cons v rest)) ++
        "\n" ++ ind ++ "]"
  | .obj .nil => "\x7b\x7d"
  | .obj (.cons k v rest) =>
      "\x7b\n" ++ String.intercalate ",\n" (stringifyFields (ind ++ "\t") (.cons k v rest)) ++
        "\n" ++ ind ++ "\x7d"

/-- The lines of an array body, each prefixed with its indentation. -/
def stringifyItems (ind : String) : JItems → List String
  | .nil => []
  | .cons v rest => (ind ++ stringifyVal ind v) :: stringifyItems ind rest

/-- The lines of an object body, each prefixed with its indentation. -/
def stringifyFields (ind : String) : JFields → List String
  | .nil => []
  | .cons k v rest =>
      (ind ++ jstring k ++ ": " ++ stringifyVal ind v) :: stringifyFields ind rest

end

namespace Pref

/-- The exact byte content the source persists for a document:
`JSON.stringify(value, null, '\t')` at top level. -/
def stringify (v : JValue) : String := stringifyVal "" v

end Pref

/-- A semantic version, restricted to the numeric `major.minor.patch`
triples that every version string appearing in the source and its tests
uses (prerelease and build suffixes are not modelled). -/
structure SemVer where
  major : Nat
  minor : Nat
  patch : Nat
deriving DecidableEq

/-- Decimal digit value of a character, `none` for non-digits. -/
def digitVal (c : Char) : Option Nat :=
  if '0' ≤ c ∧ c ≤ '9' then some (c.toNat - '0'.toNat) else none

/-- Parses a digit string into a number, left to right. -/
def parseDigits (acc : Nat) : List Char → Option Nat
  | [] => some acc
  | c :: rest =>
      match digitVal c with
      | some d => parseDigits (acc * 10 + d) rest
      | none => none

/-- A numeric semver component: a nonempty digit run with no leading
zero, as `semver` requires. -/
def parseNatStrict (s : String) : Option Nat :=
  match s.data with
  | [] => none
  | ['0'] => some 0
  | '0' :: _ :: _ => none
  | cs => parseDigits 0 cs

/-- Parses `"M.m.p"` into a `SemVer`; `none` models the `TypeError` the
`semver` library throws on an invalid version string. -/
def parseSemVer (s : String) : Option SemVer :=
  match splitPath s with
  | [a, b, c] =>
      match parseNatStrict a, parseNatStrict b, parseNatStrict c with
      | some x, some y, some z => some ⟨x, y, z⟩
      | _, _, _ => none
  | _ => none

namespace SemVer

/-- `semver.lt`. -/
def ltB (a b : SemVer) : Bool :=
  a.major < b.major ||
    (a.major = b.major && (a.minor < b.minor ||
      (a.minor = b.minor && a.patch < b.patch)))

/-- `semver.lte`. -/
def leB (a b : SemVer) : Bool :=
  a.major < b.major ||
    (a.major = b.major && (a.minor < b.minor ||
      (a.minor = b.minor && a.patch ≤ b.patch)))

/-- `semver.gt`. -/
def gtB (a b : SemVer) : Bool := ltB b a

end SemVer

/-- Sort key of a migration key string; the default is irrelevant because
the migration runner only sorts strings it has already parsed. -/
def keyOf (s : String) : SemVer := (parseSemVer s).getD ⟨0, 0, 0⟩

/-- The comparator `semver.compare` induces on migration key strings
(ascending semantic-version order). -/
def verLe (a b : String) : Prop := SemVer.leB (keyOf a) (keyOf b) = true

instance : DecidableRel verLe := fun a b => by
  unfold verLe; infer_instance

instance : IsTotal String verLe := by
  constructor
  intro a b
  simp only [verLe, SemVer.leB, Bool.or_eq_true, Bool.and_eq_true,
    decide_eq_true_eq]
  omega

instance : IsTrans String verLe := by
  constructor
  intro a b c
  simp only [verLe, SemVer.leB, Bool.or_eq_true, Bool.and_eq_true,
    decide_eq_true_eq]
  omega

/-- The outcome of `fs.readFileSync` on the config file: its content, a
missing file, or any other I/O failure carrying its error code. -/
inductive ReadResult where
  | content (s : String) : ReadResult
  | enoent : ReadResult
  | ioError (code : String) : ReadResult
deriving DecidableEq

namespace Pref

/-- `readPreferences()` from the source: returns the file's bytes; on
`ENOENT` ensures the directory and returns the serialization of an empty
document; rethrows every other error. -/
def readPreferences : ReadResult → Except String String
  | .content s => .ok s
  | .enoent => .ok (stringify (.obj .nil))
  | .ioError code => .error code

/-- `{...x}`: object spread of a parsed JSON value, as applied by the
`store` getter to `JSON.parse`'s result.  Objects keep their fields,
arrays and strings contribute their indexed elements, and the remaining
primitives spread to nothing. -/
def spreadToObj : JValue → JFields :=
  fun v =>
    match v with
    | .obj fs => fs
    | .arr xs => enumItems 0 xs
    | .str s => enumChars 0 s.data
    | _ => .nil
where
  /-- Index-keyed fields of an array, `"0"`, `"1"`, ... -/
  enumItems (i : Nat) : JItems → JFields
    | .nil => .nil
    | .cons v rest => .cons (toString i) v (enumItems (i + 1) rest)
  /-- Index-keyed single-character fields of a string. -/
  enumChars (i : Nat) : List Char → JFields
    | [] => .nil
    | c :: rest => .cons (toString i) (.str (String.mk [c])) (enumChars (i + 1) rest)

/-- The `store` getter: read the file, parse it, spread the result into a
fresh object; a `SyntaxError` from the parser yields the empty document,
any other error propagates.  The JSON parser itself is external to the
source, so it is passed in as a function, `none` standing for a parse
failure. -/
def getStore (parse : String → Option JValue) (r : ReadResult) :
    Except String JFields :=
  match readPreferences r with
  | .error code => .error code
  | .ok data =>
      match parse data with
      | none => .ok .nil
      | some v => .ok (spreadToObj v)

end Pref

/-- The mutable state one `Pref` instance and its backing file system
hold: the config file's content (`none` when absent), the atomic-write
temp file, the fingerprint of the last write (`undefined` before any),
and the pending debounce deadline of the watcher (`wait` in the source,
`some d` meaning the flag clears at time `d`). -/
structure PrefState where
  fsMain : Option String
  fsTmp : Option String
  currentHash : Option String
  deadline : Option Nat
deriving DecidableEq

namespace Pref

/-- The document the `store` getter yields in the states reachable by the
embedded operations, where reading the file never fails: file content when
present, the empty serialization on `ENOENT`, and the empty document when
the parser rejects the data. -/
def loadDoc (parse : String → Option JValue) (st : PrefState) : JFields :=
  let data := match st.fsMain with
    | some s => s
    | none => stringify (.obj .nil)
  match parse data with
  | none => .nil
  | some v => spreadToObj v

/-- First half of `writeFileAtomic.sync`, modelled from the spec: the new
serialization is written to a temporary file, leaving the target file
untouched.  The fingerprint is updated before the write, as in the
source's `store` setter. -/
def saveWriteTmp (md5 : String → String) (st : PrefState) (value : JFields) :
    PrefState :=
  let data := stringify (.obj value)
  { st with fsTmp := some data, currentHash := some (md5 data) }

/-- Second half of `writeFileAtomic.sync`, modelled from the spec: the
temporary file is atomically renamed over the target. -/
def saveRename (st : PrefState) : PrefState :=
  match st.fsTmp with
  | some data => { st with fsMain := some data, fsTmp := none }
  | none => st

/-- The `store` setter: serialize with tab indentation, record the MD5
fingerprint of the serialization, write atomically.  (The `change` event
it emits is accounted by each operation below.) -/
def setStore (md5 : String → String) (st : PrefState) (value : JFields) :
    PrefState :=
  let data := stringify (.obj value)
  { st with fsMain := some data, fsTmp := none, currentHash := some (md5 data) }

/-- `delete(key)`: re-read the store, drop the path, write back; one
`change` event. -/
def deleteOp (md5 : String → String) (parse : String → Option JValue)
    (st : PrefState) (key : String) : PrefState × Nat :=
  (setStore md5 st (dotDelete (loadDoc parse st) key), 1)

/-- `clear()`: replace the document with the empty one; one `change`
event. -/
def clearOp (md5 : String → String) (st : PrefState) : PrefState × Nat :=
  (setStore md5 st .nil, 1)

/-- Assignment to the `store` property: replace the whole document; one
`change` event. -/
def storeAssignOp (md5 : String → String) (st : PrefState) (value : JFields) :
    PrefState × Nat :=
  (setStore md5 st value, 1)

end Pref

/-- A JavaScript value in `key` position of `set(key, value)`, with the
constructors needed to cover every `typeof` class the source
distinguishes. -/
inductive JSVal where
  | str (s : String) : JSVal
  | obj (fs : JFields) : JSVal
  | arr (xs : JItems) : JSVal
  | jsNull : JSVal
  | num (n : Int) : JSVal
  | boolv (b : Bool) : JSVal
  | undef : JSVal
deriving DecidableEq

/-- JavaScript `typeof`; note that `null` and arrays are of type
`"object"`. -/
def typeOf : JSVal → String
  | .str _ => "string"
  | .obj _ => "object"
  | .arr _ => "object"
  | .jsNull => "object"
  | .num _ => "number"
  | .boolv _ => "boolean"
  | .undef => "undefined"

/-- The errors `set` can raise: the two argument-guard `TypeError`s from
the source, and the `TypeError` thrown by `Object.keys(null)` when the
key enumeration of a `null` "object" key is attempted. -/
inductive PrefError where
  | invalidKeyType (t : String) : PrefError
  | useDelete : PrefError
  | nullNotObject : PrefError
deriving DecidableEq

/-- Result of one store operation: the state afterwards and the number of
`change` events it emitted, or the error it threw together with the state
at the moment of the throw. -/
inductive OpResult where
  | ok (st : PrefState) (changeEvents : Nat) : OpResult
  | err (e : PrefError) (st : PrefState) (changeEvents : Nat) : OpResult
deriving DecidableEq

/-- Applies each `(key, value)` pair of an object-form argument as a
dot-path assignment, in key order (`for (const k of Object.keys(key))`). -/
def applyPairs (d : JFields) : JFields → JFields
  | .nil => d
  | .cons k v rest => applyPairs (dotSet d k v) rest

namespace Pref

/-- `set(key, value)` from the source, on the full state: the two argument
guards, then the re-read of the store, then either the enumeration of an
object-form key (which throws on `null`) or the single dot-path
assignment, then the atomic save with its single `change` event. -/
def setOp (md5 : String → String) (parse : String → Option JValue)
    (st : PrefState) (key : JSVal) (value : Option JValue) : OpResult :=
  if typeOf key ≠ "string" ∧ typeOf key ≠ "object" then
    .err (.invalidKeyType (typeOf key)) st 0
  else if typeOf key ≠ "object" ∧ value = none then
    .err .useDelete st 0
  else
    let store := loadDoc parse st
    match key with
    | .jsNull => .err .nullNotObject st 0
    | .obj fs => .ok (setStore md5 st (applyPairs store fs)) 1
    | .arr xs => .ok (setStore md5 st (applyPairs store (spreadToObj.enumItems 0 xs))) 1
    | .str s =>
        match value with
        | some v => .ok (setStore md5 st (dotSet store s v)) 1
        | none => .err .useDelete st 0
    | _ => .err (.invalidKeyType (typeOf key)) st 0

end Pref

namespace Pref

/-- What `this.readPreferences()` yields inside the watcher callback for a
given current file content: the bytes when the file exists, the empty
serialization when it is gone. -/
def fileData : Option String → String
  | some s => s
  | none => stringify (.obj .nil)

/-- The `fs.watch` callback from the source, at the moment a raw
filesystem event arrives at time `t` with the file currently holding
`file`.  The `wait` flag is live while `t` is before the recorded
deadline.  When the flag is clear the callback arms a 100ms timer,
immediately re-reads the file, recomputes the MD5 fingerprint and emits
`change` if it differs from `currentHash`; while the flag is set the
event is ignored outright.  Returns the new state and whether `change`
was emitted. -/
def rawEvent (md5 : String → String) (st : PrefState) (t : Nat)
    (file : Option String) : PrefState × Bool :=
  let waitActive : Bool := match st.deadline with
    | some d => decide (t < d)
    | none => false
  if waitActive then (st, false)
  else
    let newHash := md5 (fileData file)
    ({ st with deadline := some (t + 100) },
      decide (st.currentHash ≠ some newHash))

/-- Folds a burst of raw events, each given as `(time, file content)`,
through the watcher callback, counting the `change` emissions. -/
def processRaw (md5 : String → String) (st : PrefState) :
    List (Nat × Option String) → PrefState × Nat
  | [] => (st, 0)
  | (t, f) :: rest =>
      let step := rawEvent md5 st t f
      let tail := processRaw md5 step.1 rest
      (tail.1, (if step.2 then 1 else 0) + tail.2)

/-- `onDidChange`'s captured baseline: `let currentValue = this.get(key)`
at subscription time. -/
def subscribeBaseline (d : Doc) (key : String) : Option JValue :=
  get d key none

/-- The `onChange` closure of `onDidChange`, run once per generic
`change` event: recompute the value at `key` over the document `d` now
current, and invoke the callback with `(newValue, oldValue)` exactly when
the two differ under deep structural comparison (`isDeepStrictEqual`,
which on the JSON data model is structural equality).  Returns the
updated captured value and the callback invocation, if any. -/
def onChangeStep (key : String) (d : Doc) (currentValue : Option JValue) :
    Option JValue × Option (Option JValue × Option JValue) :=
  let newValue := get d key none
  if newValue = currentValue then (currentValue, none)
  else (newValue, some (newValue, currentValue))

/-- Runs a subscription over a sequence of `change` events, `ds` being the
document current at each event; collects the callback invocations in
order. -/
def observeAll (key : String) (currentValue : Option JValue) :
    List Doc → List (Option JValue × Option JValue)
  | [] => []
  | d :: ds =>
      match onChangeStep key d currentValue with
      | (c, none) => observeAll key c ds
      | (c, some p) => p :: observeAll key c ds

end Pref

/-- Specification-side description of the callback invocations a per-key
subscription must produce: one `(new, old)` pair per distinct consecutive
value in the observed value sequence, duplicates collapsed. -/
def transitions (currentValue : Option JValue) :
    List (Option JValue) → List (Option JValue × Option JValue)
  | [] => []
  | v :: vs =>
      if v = currentValue then transitions currentValue vs
      else (v, currentValue) :: transitions v vs

namespace Pref

/-- `this.store.version || '0.0.0'` from the migration runner: the
recorded version string, with every falsy value (absent key, `null`,
`false`, `0`, the empty string) defaulting to `"0.0.0"`; a truthy
non-string value has no sensible version string and makes the subsequent
`semver` calls throw, which `none` models. -/
def storeVersionString (doc : Doc) : Option String :=
  match objGet doc "version" with
  | none => some "0.0.0"
  | some .null => some "0.0.0"
  | some (.bool false) => some "0.0.0"
  | some (.num n) => if n = 0 then some "0.0.0" else none
  | some (.str s) => some (if s = "" then "0.0.0" else s)
  | some (.bool true) => none
  | some (.arr _) => none
  | some (.obj _) => none

/-- The selection test of the migration runner:
`semver.lte(version, packageVersion) && semver.gt(version, runningVersion)`. -/
def selectKey (rv pv : SemVer) (k : String) : Bool :=
  match parseSemVer k with
  | some kv => SemVer.leB kv pv && SemVer.gtB kv rv
  | none => false

/-- `migrate(options)` from the source, with `options.migrations` an
ordered key/function mapping and `options.packageVersion` the target.
Returns the final document together with the list of migration keys that
ran, in order; `none` models the `TypeError` thrown by `semver` on an
unparseable version string.  Each migration function is an external
callable mutating the live store, embedded as a document transformer. -/
def migrate (migrations : List (String × (Doc → Doc))) (packageVersion : String)
    (doc : Doc) : Option (Doc × List String) :=
  match storeVersionString doc with
  | none => none
  | some runningVersion =>
      match parseSemVer runningVersion, parseSemVer packageVersion with
      | some rv, some pv =>
          let afterRun : Option (Doc × List String) :=
            if SemVer.ltB rv pv then
              if (migrations.map Prod.fst).all (fun k => (parseSemVer k).isSome) then
                let migrationsToRun :=
                  List.insertionSort verLe
                    ((migrations.map Prod.fst).filter (selectKey rv pv))
                some (migrationsToRun.foldl
                  (fun d k => ((migrations.lookup k).getD id) d) doc,
                  migrationsToRun)
              else none
            else some (doc, [])
          match afterRun with
          | none => none
          | some (d, ran) =>
              if runningVersion ≠ packageVersion then
                (some (dotSet d "version" (.str packageVersion), ran))
              else some (d, ran)
      | _, _ => none

end Pref

theorem objGet_dotSet_version (d : Doc) (v : JValue) :
    objGet (dotSet d "version" v) "version" = some v := by
  have h : splitPath "version" = ["version"] := by decide
  simp [dotSet, h, setSegs, objGet_objSet_self]

theorem SemVer.ltB_irrefl (a : SemVer) : SemVer.ltB a a = false := by
  simp [SemVer.ltB]

/-- C1: every mutating operation persists through the `store` setter's
atomic write; writing the new serialization to the temporary file leaves
the target file (and hence what a reader loads) untouched, the rename
completes the write in one step, and the target file afterwards holds the
complete new serialization.  So an interruption before the rename leaves
a subsequent load with the pre-write document, and a reader only ever
observes the complete old or the complete new contents. -/
theorem atomic_save (md5 : String → String) (parse : String → Option JValue)
    (st : PrefState) (value : JFields) (key : String) :
    Pref.loadDoc parse (Pref.saveWriteTmp md5 st value) = Pref.loadDoc parse st ∧
    (Pref.saveWriteTmp md5 st value).fsMain = st.fsMain ∧
    Pref.saveRename (Pref.saveWriteTmp md5 st value) = Pref.setStore md5 st value ∧
    (Pref.setStore md5 st value).fsMain = some (Pref.stringify (.obj value)) ∧
    Pref.clearOp md5 st = (Pref.setStore md5 st .nil, 1) ∧
    Pref.deleteOp md5 parse st key =
      (Pref.setStore md5 st (dotDelete (Pref.loadDoc parse st) key), 1) ∧
    Pref.storeAssignOp md5 st value = (Pref.setStore md5 st value, 1) :=
  ⟨rfl, rfl, rfl, rfl, rfl, rfl, rfl⟩

/-- C5: when the backing file exists but its contents do not parse as
JSON, the `store` getter returns the empty document without raising; a
filesystem error other than `ENOENT` propagates unchanged to the
caller. -/
theorem store_corrupt_and_io_errors (parse : String → Option JValue)
    (s : String) (hbad : parse s = none) (code : String) :
    Pref.getStore parse (.content s) = .ok .nil ∧
    Pref.getStore parse (.ioError code) = .error code := by
  constructor
  · simp [Pref.getStore, Pref.readPreferences, hbad]
  · rfl

/-- Witness for C5 at a concrete corrupt file and a concrete
permission-denied error code. -/
theorem store_corrupt_and_io_errors_witness :
    Pref.getStore (fun _ => none) (.content "corrupt") = .ok .nil ∧
    Pref.getStore (fun _ => none) (.ioError "EACCES") = .error "EACCES" :=
  store_corrupt_and_io_errors (fun _ => none) "corrupt" rfl "EACCES"

/-- C7: for every dot-path and every JSON value, reading a path right
after setting it yields the value just set, intermediate levels being
created on demand. -/
theorem set_get_roundtrip (d : Doc) (p : String) (v : JValue) :
    Pref.get (dotSet d p v) p none = some v := by
  unfold Pref.get dotGet dotSet
  rw [getSegs_setSegs_self (splitPath p) (splitPath_ne_nil p) d v]

theorem observeAll_eq_transitions (key : String) :
    ∀ (ds : List Doc) (cur : Option JValue),
      Pref.observeAll key cur ds =
        transitions cur (ds.map (fun x => Pref.get x key none))
  | [], _ => rfl
  | d :: ds, cur => by
      by_cases h : Pref.get d key none = cur
      · simp only [Pref.observeAll, Pref.onChangeStep, h, if_pos rfl,
          List.map_cons, transitions, if_pos h]
        exact observeAll_eq_transitions key ds cur
      · simp only [Pref.observeAll, Pref.onChangeStep, if_neg h,
          List.map_cons, transitions]
        exact congrArg _ (observeAll_eq_transitions key ds _)

/-- C4: a per-key subscription captures the value at subscription time as
its baseline; on each generic `change` notification it fires exactly when
the recomputed value differs structurally from the last-seen one, passing
`(newValue, oldValue)`; and over any event sequence the invocations are
exactly one per distinct consecutive value transition, with a
structurally-unchanged recomputation firing nothing. -/
theorem onDidChange_fires_per_transition (key : String) (d0 d : Doc)
    (cur : Option JValue) (ds : List Doc) :
    Pref.subscribeBaseline d0 key = Pref.get d0 key none ∧
    ((Pref.onChangeStep key d cur).2 ≠ none ↔ Pref.get d key none ≠ cur) ∧
    (Pref.onChangeStep key d cur).2 =
      (if Pref.get d key none = cur then none
        else some (Pref.get d key none, cur)) ∧
    Pref.observeAll key (Pref.subscribeBaseline d0 key) ds =
      transitions (Pref.get d0 key none)
        (ds.map (fun x => Pref.get x key none)) := by
  refine ⟨rfl, ?_, ?_, observeAll_eq_transitions key ds _⟩
  · by_cases h : Pref.get d key none = cur <;>
      simp [Pref.onChangeStep, h]
  · by_cases h : Pref.get d key none = cur <;>
      simp [Pref.onChangeStep, h]

/-- C6: `set` raises one of its two argument-guard `TypeError`s exactly
when the key is neither a string nor an object, or the key is a string
and the value is `undefined`; and whenever such a guard error is raised
the state is untouched and no `change` event is emitted (the error result
carries the unchanged state and an event count of zero). -/
theorem set_guard_errors (md5 : String → String)
    (parse : String → Option JValue) (st : PrefState) (key : JSVal)
    (value : Option JValue) :
    (∃ e, (e = PrefError.invalidKeyType (typeOf key) ∨ e = PrefError.useDelete) ∧
        Pref.setOp md5 parse st key value = .err e st 0) ↔
      ((typeOf key ≠ "string" ∧ typeOf key ≠ "object") ∨
        (typeOf key = "string" ∧ value = none)) := by
  cases key <;> cases value <;>
    simp [Pref.setOp, typeOf]

/-- C9: in the object form of `set` the second argument is ignored — an
object key with an `undefined` value does not raise the
use-`delete` error, and every key of the mapping is applied as a dot-path
with its value; `typeof null` and `typeof` of an array are both
`"object"`, so both pass the argument guard, `null` failing only at key
enumeration with a distinct error and arrays having their indices applied
as keys. -/
theorem set_object_form (md5 : String → String)
    (parse : String → Option JValue) (st : PrefState) (fs : JFields)
    (v : Option JValue) (xs : JItems) :
    typeOf (.obj fs) = "object" ∧
    Pref.setOp md5 parse st (.obj fs) none =
      .ok (Pref.setStore md5 st (applyPairs (Pref.loadDoc parse st) fs)) 1 ∧
    typeOf .jsNull = "object" ∧
    Pref.setOp md5 parse st .jsNull v = .err .nullNotObject st 0 ∧
    PrefError.nullNotObject ≠ PrefError.invalidKeyType "object" ∧
    PrefError.nullNotObject ≠ PrefError.useDelete ∧
    typeOf (.arr xs) = "object" ∧
    Pref.setOp md5 parse st (.arr xs) v =
      .ok (Pref.setStore md5 st
        (applyPairs (Pref.loadDoc parse st) (Pref.spreadToObj.enumItems 0 xs))) 1 := by
  refine ⟨rfl, by simp [Pref.setOp, typeOf], rfl, ?_, by simp, by simp, rfl, ?_⟩
  · cases v <;> simp [Pref.setOp, typeOf]
  · cases v <;> simp [Pref.setOp, typeOf]

/-- C10: after a write through the `store` setter — which `set`, `delete`,
`clear` and store-assignment all go through — the recorded fingerprint is
the MD5 digest of the tab-indented serialization just written, the file
holds exactly that serialization, and a watcher check that re-reads the
still-unchanged file never emits a `change`. -/
theorem write_hash_invariant (md5 : String → String)
    (parse : String → Option JValue) (st : PrefState) (doc : JFields)
    (key : String) (t : Nat) :
    (Pref.setStore md5 st doc).currentHash =
      some (md5 (Pref.stringify (.obj doc))) ∧
    (Pref.setStore md5 st doc).fsMain = some (Pref.stringify (.obj doc)) ∧
    (Pref.rawEvent md5 (Pref.setStore md5 st doc) t
      (Pref.setStore md5 st doc).fsMain).2 = false ∧
    (Pref.deleteOp md5 parse st key).1 =
      Pref.setStore md5 st (dotDelete (Pref.loadDoc parse st) key) ∧
    (Pref.clearOp md5 st).1 = Pref.setStore md5 st .nil ∧
    (Pref.storeAssignOp md5 st doc).1 = Pref.setStore md5 st doc := by
  refine ⟨rfl, rfl, ?_, rfl, rfl, rfl⟩
  simp only [Pref.rawEvent, Pref.setStore, Pref.fileData]
  split <;> simp

theorem migrate_spec_aux (migrations : List (String × (Doc → Doc)))
    (packageVersion : String) (doc : Doc) (rs : String) (rv pv : SemVer)
    (hrs : Pref.storeVersionString doc = some rs)
    (hrv : parseSemVer rs = some rv)
    (hpv : parseSemVer packageVersion = some pv)
    (hlt : SemVer.ltB rv pv = true)
    (hkeys : ∀ k ∈ migrations.map Prod.fst, (parseSemVer k).isSome = true)
    (hnd : (migrations.map Prod.fst).Nodup) :
    ∃ d applied,
      Pref.migrate migrations packageVersion doc = some (d, applied) ∧
      List.Perm applied
        ((migrations.map Prod.fst).filter (Pref.selectKey rv pv)) ∧
      applied.Nodup ∧
      List.Sorted verLe applied ∧
      d = dotSet (applied.foldl
            (fun a k => ((migrations.lookup k).getD id) a) doc)
            "version" (.str packageVersion) ∧
      objGet d "version" = some (.str packageVersion) := by
  have hall : (migrations.map Prod.fst).all
      (fun k => (parseSemVer k).isSome) = true := by
    rw [List.all_eq_true]
    exact hkeys
  have hne : rs ≠ packageVersion := by
    intro h
    rw [h, hpv] at hrv
    have : rv = pv := by
      injection hrv with h2
      exact h2.symm
    rw [this, SemVer.ltB_irrefl] at hlt
    exact absurd hlt (by simp)
  set toRun := List.insertionSort verLe
    ((migrations.map Prod.fst).filter (Pref.selectKey rv pv)) with htr
  have hperm : List.Perm toRun
      ((migrations.map Prod.fst).filter (Pref.selectKey rv pv)) :=
    List.perm_insertionSort verLe _
  have hnodupF : ((migrations.map Prod.fst).filter
      (Pref.selectKey rv pv)).Nodup := hnd.filter _
  have hnodup : toRun.Nodup := hperm.nodup_iff.mpr hnodupF
  have hsorted : List.Sorted verLe toRun :=
    List.sorted_insertionSort verLe _
  refine ⟨_, toRun, ?_, hperm, hnodup, hsorted, rfl,
    objGet_dotSet_version _ _⟩
  unfold Pref.migrate
  rw [hrs]
  simp only [hrv, hpv, hlt, hall, if_true, ← htr]
  simp [hne]

/-- C2: with a recorded version below the target, construction runs
exactly the configured migrations whose key lies in
`runningVersion < key <= currentVersion` — each exactly once, in
ascending semantic-version order, each seeing the cumulative effect of
its predecessors — and leaves the document's `version` key equal to the
target version. -/
theorem migrate_applies_exact_range (migrations : List (String × (Doc → Doc)))
    (packageVersion : String) (doc : Doc) (rs : String) (rv pv : SemVer)
    (hrs : Pref.storeVersionString doc = some rs)
    (hrv : parseSemVer rs = some rv)
    (hpv : parseSemVer packageVersion = some pv)
    (hlt : SemVer.ltB rv pv = true)
    (hkeys : ∀ k ∈ migrations.map Prod.fst, (parseSemVer k).isSome = true)
    (hnd : (migrations.map Prod.fst).Nodup) :
    ∃ d applied,
      Pref.migrate migrations packageVersion doc = some (d, applied) ∧
      List.Perm applied
        ((migrations.map Prod.fst).filter (Pref.selectKey rv pv)) ∧
      applied.Nodup ∧
      List.Sorted verLe applied ∧
      d = dotSet (applied.foldl
            (fun a k => ((migrations.lookup k).getD id) a) doc)
            "version" (.str packageVersion) ∧
      objGet d "version" = some (.str packageVersion) :=
  migrate_spec_aux migrations packageVersion doc rs rv pv hrs hrv hpv hlt
    hkeys hnd

/-- Witness for C2 on the spec's own scenario: migrations at `"1.0.0"`
and `"4.0.0"`, a document recorded at `"0.0.2"`, target `"2.0.0"`. -/
theorem migrate_applies_exact_range_witness :
    ∃ d applied,
      Pref.migrate
        [("1.0.0", fun a => dotSet a "new" (.str "old")),
          ("4.0.0", fun a => dotSet a "iShouldntExist" (.num 1))]
        "2.0.0" (.cons "version" (.str "0.0.2") .nil) = some (d, applied) ∧
      List.Perm applied
        (([("1.0.0", fun a => dotSet a "new" (.str "old")),
            ("4.0.0", fun a => dotSet a "iShouldntExist" (.num 1))].map
              (Prod.fst (α := String) (β := Doc → Doc))).filter
          (Pref.selectKey ⟨0, 0, 2⟩ ⟨2, 0, 0⟩)) ∧
      applied.Nodup ∧
      List.Sorted verLe applied ∧
      d = dotSet (applied.foldl
            (fun a k =>
              (([("1.0.0", fun a => dotSet a "new" (.str "old")),
                  ("4.0.0", fun a => dotSet a "iShouldntExist" (.num 1))].lookup
                    k).getD id) a)
            (.cons "version" (.str "0.0.2") .nil))
            "version" (.str "2.0.0") ∧
      objGet d "version" = some (.str "2.0.0") :=
  migrate_applies_exact_range _ "2.0.0" _ "0.0.2" ⟨0, 0, 2⟩ ⟨2, 0, 0⟩
    (by decide) (by decide) (by decide) (by decide) (by decide) (by decide)

/-- C3 counterexample: with migrations configured, a document with no
`version` key and target version exactly `"0.0.0"`, the runner leaves the
document without any `version` key — the claim's "version is then set to
currentVersion and persisted" fails, because the final guard compares the
defaulted `"0.0.0"` against the target by string inequality. -/
theorem migrate_zero_target_counterexample :
    Pref.migrate [("1.0.0", fun a => a)] "0.0.0" .nil = some (.nil, []) ∧
    objGet (.nil : JFields) "version" = none ∧
    objGet (.nil : JFields) "version" ≠ some (.str "0.0.0") := by
  refine ⟨by decide, rfl, by decide⟩

/-- C3 (amended): with migrations configured and no `version` key in the
document, the runner treats the recorded version as `"0.0.0"` and applies
exactly the migrations with `"0.0.0" < key <= currentVersion`, each once
and in ascending order; provided the target version is semantically above
`0.0.0`, the `version` key is then set to the target and persisted (a
target equal to `"0.0.0"` leaves the key unwritten). -/
theorem migrate_missing_version_defaults
    (migrations : List (String × (Doc → Doc)))
    (packageVersion : String) (doc : Doc) (pv : SemVer)
    (hnover : objGet doc "version" = none)
    (hpv : parseSemVer packageVersion = some pv)
    (hgt : SemVer.ltB ⟨0, 0, 0⟩ pv = true)
    (hkeys : ∀ k ∈ migrations.map Prod.fst, (parseSemVer k).isSome = true)
    (hnd : (migrations.map Prod.fst).Nodup) :
    Pref.storeVersionString doc = some "0.0.0" ∧
    ∃ d applied,
      Pref.migrate migrations packageVersion doc = some (d, applied) ∧
      List.Perm applied
        ((migrations.map Prod.fst).filter (Pref.selectKey ⟨0, 0, 0⟩ pv)) ∧
      applied.Nodup ∧
      List.Sorted verLe applied ∧
      objGet d "version" = some (.str packageVersion) := by
  have hrs : Pref.storeVersionString doc = some "0.0.0" := by
    simp [Pref.storeVersionString, hnover]
  refine ⟨hrs, ?_⟩
  obtain ⟨d, applied, h1, h2, h3, h4, _, h6⟩ :=
    migrate_spec_aux migrations packageVersion doc "0.0.0" ⟨0, 0, 0⟩ pv hrs
      (by decide) hpv hgt hkeys hnd
  exact ⟨d, applied, h1, h2, h3, h4, h6⟩

/-- Witness for the amended C3: one migration at `"0.5.0"`, no recorded
version, target `"1.0.0"`. -/
theorem migrate_missing_version_defaults_witness :
    Pref.storeVersionString (.nil : JFields) = some "0.0.0" ∧
    ∃ d applied,
      Pref.migrate [("0.5.0", fun a => dotSet a "upgraded" (.bool true))]
        "1.0.0" .nil = some (d, applied) ∧
      List.Perm applied
        (([("0.5.0", fun a => dotSet a "upgraded" (.bool true))].map
            (Prod.fst (α := String) (β := Doc → Doc))).filter
          (Pref.selectKey ⟨0, 0, 0⟩ ⟨1, 0, 0⟩)) ∧
      applied.Nodup ∧
      List.Sorted verLe applied ∧
      objGet d "version" = some (.str "1.0.0") :=
  migrate_missing_version_defaults _ "1.0.0" .nil ⟨1, 0, 0⟩ rfl (by decide)
    (by decide) (by decide) (by decide)

namespace Pref

/-- The watcher's `wait` flag is clear at time `t`: no timer was ever
armed, or the armed timer already fired. -/
def timerIdle (st : PrefState) (t : Nat) : Prop :=
  ∀ d, st.deadline = some d → d ≤ t

end Pref

theorem rawEvent_fresh (md5 : String → String) (st : PrefState) (t : Nat)
    (file : Option String) (hidle : Pref.timerIdle st t) :
    Pref.rawEvent md5 st t file =
      ({ st with deadline := some (t + 100) },
        decide (st.currentHash ≠ some (md5 (Pref.fileData file)))) := by
  unfold Pref.rawEvent
  cases hd : st.deadline with
  | none => simp
  | some d =>
      have hle := hidle d hd
      simp [Nat.not_lt.mpr hle]

theorem processRaw_suppressed (md5 : String → String) (st : PrefState)
    (D : Nat) (hD : st.deadline = some D) :
    ∀ (events : List (Nat × Option String)),
      (∀ e ∈ events, e.1 < D) →
      Pref.processRaw md5 st events = (st, 0)
  | [], _ => rfl
  | (t, f) :: rest, h => by
      have ht : t < D := h (t, f) (by simp)
      have hstep : Pref.rawEvent md5 st t f = (st, false) := by
        unfold Pref.rawEvent
        simp [hD, ht]
      simp only [Pref.processRaw, hstep]
      rw [processRaw_suppressed md5 st D hD rest
        (fun e he => h e (by simp [he]))]
      simp

/-- C8 is refuted at a concrete run: with no debounce timer pending and
the file holding new content, the very step that receives the raw event
both emits the change signal and arms the window that only ends at time
100 — the re-read, fingerprint comparison and emission happen immediately
on the first raw event of a burst, not "only after the window elapses"
(the timer callback in the source merely clears the `wait` flag and
triggers no re-read). -/
theorem watch_immediate_emit_counterexample :
    (Pref.rawEvent (fun s => s) ⟨some "old", none, some "old", none⟩ 0
      (some "new")).2 = true ∧
    (Pref.rawEvent (fun s => s) ⟨some "old", none, some "old", none⟩ 0
      (some "new")).1.deadline = some 100 := by
  constructor
  · decide
  · decide

/-- C8 (amended): a raw filesystem event arriving while no debounce timer
is pending immediately re-reads the file, recomputes the fingerprint and
emits the generic change signal exactly when it differs from the
last-known one, and at the same instant arms a fixed 100ms window; every
further raw event inside that window is ignored outright (the window's
expiry triggers no re-read), so a burst of raw events within one window
yields at most one notification. -/
theorem watch_debounce_window (md5 : String → String) (st : PrefState)
    (t : Nat) (file : Option String)
    (events : List (Nat × Option String))
    (hidle : Pref.timerIdle st t)
    (hburst : ∀ e ∈ events, e.1 < t + 100) :
    (Pref.rawEvent md5 st t file).1.deadline = some (t + 100) ∧
    ((Pref.rawEvent md5 st t file).2 = true ↔
      st.currentHash ≠ some (md5 (Pref.fileData file))) ∧
    Pref.processRaw md5 (Pref.rawEvent md5 st t file).1 events =
      ((Pref.rawEvent md5 st t file).1, 0) ∧
    (Pref.processRaw md5 st ((t, file) :: events)).2 ≤ 1 := by
  have hfresh := rawEvent_fresh md5 st t file hidle
  have hdl : (Pref.rawEvent md5 st t file).1.deadline = some (t + 100) := by
    rw [hfresh]
  have hsup := processRaw_suppressed md5 (Pref.rawEvent md5 st t file).1
    (t + 100) hdl events hburst
  refine ⟨hdl, ?_, hsup, ?_⟩
  · rw [hfresh]
    simp
  · simp only [Pref.processRaw, hsup]
    cases (Pref.rawEvent md5 st t file).2 <;> simp

/-- Witness for the amended C8: a three-event burst at times 0, 10, 20
over a changed file produces exactly the immediate notification of the
first event and nothing further inside the window. -/
theorem watch_debounce_window_witness :
    (Pref.rawEvent (fun s => s) ⟨some "a", none, some "a", none⟩ 0
      (some "b")).1.deadline = some (0 + 100) ∧
    ((Pref.rawEvent (fun s => s) ⟨some "a", none, some "a", none⟩ 0
      (some "b")).2 = true ↔
      (some "a" : Option String) ≠
        some ((fun s => s) (Pref.fileData (some "b")))) ∧
    Pref.processRaw (fun s => s)
      (Pref.rawEvent (fun s => s) ⟨some "a", none, some "a", none⟩ 0
        (some "b")).1 [(10, some "c"), (20, some "d")] =
      ((Pref.rawEvent (fun s => s) ⟨some "a", none, some "a", none⟩ 0
        (some "b")).1, 0) ∧
    (Pref.processRaw (fun s => s) ⟨some "a", none, some "a", none⟩
      ((0, some "b") :: [(10, some "c"), (20, some "d")])).2 ≤ 1 :=
  watch_debounce_window (fun s => s) ⟨some "a", none, some "a", none⟩ 0
    (some "b") [(10, some "c"), (20, some "d")]
    (fun d h => nomatch h) (by decide)
